import Mathlib

/-
Verification of internal/build/util.go (build helper utilities).

Modelling conventions:
- Byte/string data is modelled as `List Char` (named `Str` below).
- The operating system and the Go standard library are modelled as explicit
  oracle inputs: the outcome of running a subprocess, the file system as an
  association list from paths to contents, and success flags for the few
  library calls that can fail for environmental reasons (os.MkdirAll, io.Copy).
- Every function of the file either returns normally or terminates the whole
  process through log.Fatal; we model this with `ProcResult`, whose `fatal`
  constructor carries the observable world at the moment the process dies.
  Note that Go's log.Fatal calls os.Exit, which terminates immediately and
  does NOT run deferred functions.
-/

/-- Strings/byte slices are modelled as lists of characters. -/
abbrev Str := List Char

/-- Result of a function that either returns normally (with the observable
world `ω` and a value `α`) or kills the whole process via log.Fatal
(carrying the observable world at the moment of death). -/
inductive ProcResult (ω : Type) (α : Type) where
  | ok (world : ω) (val : α)
  | fatal (world : ω)
deriving DecidableEq, Repr

/-- Go's unicode.IsSpace on a rune: the Unicode White_Space set, exactly the
set consulted by strings.TrimSpace / bytes.TrimSpace. -/
def goIsSpace (c : Char) : Bool :=
  c == '\t' || c == '\n' || c == '\x0B' || c == '\x0C' || c == '\r' || c == ' ' ||
  c == '\u0085' || c == '\u00A0' || c == '\u1680' ||
  (0x2000 ≤ c.toNat && c.toNat ≤ 0x200A) ||
  c == '\u2028' || c == '\u2029' || c == '\u202F' || c == '\u205F' || c == '\u3000'

/-- Remove leading white space (the first half of TrimSpace). -/
def trimLeft (s : Str) : Str := s.dropWhile goIsSpace

/-- Remove trailing white space (the second half of TrimSpace). -/
def trimRight (s : Str) : Str := (s.reverse.dropWhile goIsSpace).reverse

/-- Go strings.TrimSpace / bytes.TrimSpace: drop leading and trailing
white space, keep everything in between. -/
def trimSpace (s : Str) : Str := trimRight (trimLeft s)

/-- Go strings.Contains(s, sub): sub occurs as a contiguous substring of s. -/
def goContains (s sub : Str) : Bool := decide (sub <:+: s)

/-- Go strings.Join(elems, " "). -/
def joinSpace : List Str → Str
  | [] => []
  | [s] => s
  | s :: rest => s ++ ' ' :: joinSpace rest

/-- Go strings.Split(s, "\n"): split at every newline; returns the parts
between newlines, which is one more part than there are newlines. -/
def splitLines : Str → List Str
  | [] => [[]]
  | c :: rest =>
    if c = '\n' then [] :: splitLines rest
    else
      match splitLines rest with
      | [] => [[c]]
      | l :: ls => (c :: l) :: ls

/-- An exec.Cmd, reduced to what the file observes: cmd.Args, whose first
element is the program path and the rest the arguments. -/
structure Cmd where
  args : List Str
deriving DecidableEq, Repr

/-- Oracle outcome of actually running a subprocess via cmd.Run. -/
inductive RunOutcome where
  | succeed
  | fail
deriving DecidableEq, Repr

/-- Observable world of MustRun: the lines printed to stdout and whether the
subprocess was actually executed. -/
structure RunWorld where
  printed : List Str
  executed : Bool
deriving DecidableEq, Repr

/-- MustRun (util.go): prints the command line as
fmt.Println(">>>", strings.Join(cmd.Args, " ")), then, unless DryRunFlag is
set, executes the command with its stdout/stderr attached to the process's
own and calls log.Fatal on any error. -/
def MustRun (dryRunFlag : Bool) (outcome : RunOutcome) (cmd : Cmd) :
    ProcResult RunWorld Unit :=
  let line : Str := ">>> ".toList ++ joinSpace cmd.args
  if dryRunFlag then .ok ⟨[line], false⟩ ()
  else
    match outcome with
    | .succeed => .ok ⟨[line], true⟩ ()
    | .fail => .fatal ⟨[line], true⟩

/-- MustRunCommand (util.go): MustRun on exec.Command(cmd, args...), whose
Args list is the program name followed by the arguments. -/
def MustRunCommand (dryRunFlag : Bool) (outcome : RunOutcome)
    (cmd : Str) (args : List Str) : ProcResult RunWorld Unit :=
  MustRun dryRunFlag outcome ⟨cmd :: args⟩

/-- VERSION (util.go): reads the file "VERSION" (its content given here as
the oracle `file`, none when the read fails) and returns
bytes.TrimSpace of the content; a read error is fatal. -/
def VERSION (file : Option Str) : ProcResult Unit Str :=
  match file with
  | none => .fatal ()
  | some content => .ok () (trimSpace content)

/-- The hard-coded path of the git binary in util.go. -/
def gitPath : Str := "/home/afranzin/software/bin/bin/git".toList

/-- The one-time warning RunGit logs when git is missing. -/
def gitWarning : Str := "Warning: can't find 'git' in PATH".toList

/-- The process-wide state read and written by RunGit. -/
structure GitState where
  warnedAboutGit : Bool
deriving DecidableEq, Repr

/-- Oracle outcome of cmd.Run for the git invocation: the error compared
against exec.ErrNotFound (binary not found), any other error (with the
captured stderr), or success (with the captured stdout). -/
inductive GitExec where
  | notFound
  | failed (stderrOut : Str)
  | succeeded (stdoutOut : Str)
deriving DecidableEq, Repr

/-- RunGit (util.go): runs git with the given arguments, capturing stdout and
stderr. If the binary is not found it logs a warning once per process
(guarded by warnedAboutGit) and returns ""; any other error is fatal;
on success it returns the trimmed stdout. The world is the updated
warnedAboutGit state together with the log lines emitted by this call
(the text of the fatal log message is not modelled). -/
def RunGit (args : List Str) (outcome : GitExec) (st : GitState) :
    ProcResult (GitState × List Str) Str :=
  match outcome with
  | .notFound =>
    if st.warnedAboutGit then .ok (st, []) []
    else .ok (⟨true⟩, [gitWarning]) []
  | .failed _ => .fatal (st, [])
  | .succeeded stdoutOut => .ok (st, []) (trimSpace stdoutOut)

/-- The file system: an association list from paths to file contents; the
first binding of a path is its current content. -/
abbrev FS := List (Str × Str)

/-- Current content of a path, none when the path does not exist. -/
def fsLookup : FS → Str → Option Str
  | [], _ => none
  | (p, c) :: rest, q => if p = q then some c else fsLookup rest q

/-- Create or overwrite a file. -/
def fsInsert (fs : FS) (p c : Str) : FS := (p, c) :: fs

/-- Oracle for the text/template engine: parsing template text (none on a
parse error, which template.Must turns into a panic), executing a parsed
template against a data value (none on a runtime error, which render turns
into log.Fatal), and the bytes already written to the output file when
execution fails midway. -/
structure TmplOracle (Tpl Data : Type) where
  parse : Str → Option Tpl
  execute : Tpl → Data → Option Str
  partWritten : Tpl → Data → Str

/-- render (util.go, lower-case): ensures the parent directories exist
(os.MkdirAll, whose success is the oracle mkdirOk), opens the output file
with O_CREATE|O_WRONLY|O_EXCL — fatal when the file already exists —
executes the template into it and closes it (a close error, also fatal,
is not modelled separately: the content is written either way). -/
def render {Tpl Data : Type} (O : TmplOracle Tpl Data) (mkdirOk : Bool)
    (fs : FS) (tpl : Tpl) (outputFile : Str) (x : Data) : ProcResult FS Unit :=
  if !mkdirOk then .fatal fs
  else if (fsLookup fs outputFile).isSome then .fatal fs
  else
    match O.execute tpl x with
    | none => .fatal (fsInsert fs outputFile (O.partWritten tpl x))
    | some outContent => .ok (fsInsert fs outputFile outContent) ()

/-- Render (util.go): template.Must(template.ParseFiles(templateFile)) —
fatal when the template file cannot be read or does not parse — then render. -/
def Render {Tpl Data : Type} (O : TmplOracle Tpl Data) (mkdirOk : Bool)
    (fs : FS) (templateFile outputFile : Str) (x : Data) : ProcResult FS Unit :=
  match fsLookup fs templateFile with
  | none => .fatal fs
  | some content =>
    match O.parse content with
    | none => .fatal fs
    | some tpl => render O mkdirOk fs tpl outputFile x

/-- RenderString (util.go): template.Must(template.New("").Parse(content)) —
fatal when the template text does not parse — then render. -/
def RenderString {Tpl Data : Type} (O : TmplOracle Tpl Data) (mkdirOk : Bool)
    (fs : FS) (templateContent outputFile : Str) (x : Data) : ProcResult FS Unit :=
  match O.parse templateContent with
  | none => .fatal fs
  | some tpl => render O mkdirOk fs tpl outputFile x

/-- Observable world of CopyFile: the file system plus the file handles the
function opened and the handles it closed. Handle 0 is the destination,
handle 1 the source. -/
structure CopyWorld where
  fs : FS
  opened : List Nat
  closed : List Nat
deriving DecidableEq, Repr

/-- CopyFile (util.go): ensures the destination's parent directories exist
(os.MkdirAll, oracle mkdirOk), opens the destination with
O_CREATE|O_WRONLY|O_TRUNC (oracle openDstOk for environmental failures;
on success the destination is created or truncated to empty), registers
`defer destFile.Close()`, opens the source for reading, registers
`defer srcFile.Close()`, and copies all bytes (oracle copyOk; on failure
`partBytes` is what was written before the error). Every error path calls
log.Fatal, i.e. os.Exit, which does NOT run the deferred Close calls; only
a normal return runs them (in LIFO order: source first, then destination). -/
def CopyFile (mkdirOk openDstOk copyOk : Bool) (partBytes : Str)
    (fs : FS) (dst src : Str) : ProcResult CopyWorld Unit :=
  if !mkdirOk then .fatal ⟨fs, [], []⟩
  else if !openDstOk then .fatal ⟨fs, [], []⟩
  else
    let fs1 := fsInsert fs dst []
    match fsLookup fs1 src with
    | none => .fatal ⟨fs1, [0], []⟩
    | some srcContent =>
      if copyOk then .ok ⟨fsInsert fs1 dst srcContent, [0, 1], [1, 0]⟩ ()
      else .fatal ⟨fsInsert fs1 dst partBytes, [0, 1], []⟩

/-- The wildcard marker scanned for by ExpandPackagesNoVendor. -/
def wildcardMarker : Str := "...".toList

/-- The vendor path segment filtered out by ExpandPackagesNoVendor. -/
def vendorSeg : Str := "/vendor/".toList

/-- The `expand` flag of ExpandPackagesNoVendor: some pattern contains "...". -/
def expandNeeded (patterns : List Str) : Bool :=
  patterns.any (fun pkg => goContains pkg wildcardMarker)

/-- The filtering loop of ExpandPackagesNoVendor: keep, trimmed, every line
that does not contain "/vendor/". -/
def filterVendor : List Str → List Str
  | [] => []
  | line :: rest =>
    if goContains line vendorSeg then filterVendor rest
    else trimSpace line :: filterVendor rest

/-- Oracle outcome of the `go list` subprocess (cmd.CombinedOutput). -/
inductive GoListOutcome where
  | ok (combinedOut : Str)
  | err (combinedOut : Str)
deriving DecidableEq, Repr

/-- ExpandPackagesNoVendor (util.go): if no pattern contains "..." the input
is returned as is and no subprocess runs; otherwise `go list` is invoked on
all the patterns (its outcome is the oracle `goList`), a failure is fatal,
and on success the combined output is split into lines, lines containing
"/vendor/" are dropped and the remaining lines are trimmed. The world
records whether the subprocess was invoked. -/
def ExpandPackagesNoVendor (goList : GoListOutcome) (patterns : List Str) :
    ProcResult Bool (List Str) :=
  if expandNeeded patterns then
    match goList with
    | .err _ => .fatal true
    | .ok out => .ok true (filterVendor (splitLines out))
  else .ok false patterns


/- Helper lemmas about the string operations. -/

lemma trimLeft_suffix (s : Str) : trimLeft s <:+ s :=
  List.dropWhile_suffix _

lemma trimRight_isPrefix (s : Str) : trimRight s <+: s := by
  have h : s.reverse.dropWhile goIsSpace <:+ s.reverse := List.dropWhile_suffix _
  simpa [trimRight] using List.reverse_prefix.mpr h

lemma trimSpace_isInfix (s : Str) : trimSpace s <:+: s :=
  ((trimRight_isPrefix (trimLeft s)).isInfix).trans ((trimLeft_suffix s).isInfix)

lemma goContains_iff (s sub : Str) : goContains s sub = true ↔ sub <:+: s := by
  simp [goContains]

lemma goContains_trimSpace {s sub : Str} (h : goContains (trimSpace s) sub = true) :
    goContains s sub = true :=
  (goContains_iff s sub).mpr (((goContains_iff _ sub).mp h).trans (trimSpace_isInfix s))

lemma head?_trimLeft_not_space {s : Str} {a : Char}
    (h : (trimLeft s).head? = some a) : goIsSpace a = false := by
  have := List.head?_dropWhile_not goIsSpace s
  simp only [trimLeft] at h
  rw [h] at this
  simpa using this

lemma getLast?_trimRight_not_space {s : Str} {a : Char}
    (h : (trimRight s).getLast? = some a) : goIsSpace a = false := by
  have hrev : (trimRight s).getLast? = (s.reverse.dropWhile goIsSpace).head? :=
    List.getLast?_reverse _
  have := List.head?_dropWhile_not goIsSpace s.reverse
  rw [hrev] at h
  rw [h] at this
  simpa using this

lemma head?_of_isPrefix {x y : Str} {a : Char} (hp : x <+: y)
    (h : x.head? = some a) : y.head? = some a := by
  obtain ⟨t, rfl⟩ := hp
  cases x with
  | nil => simp at h
  | cons b bs => simp_all

lemma trimLeft_decomp (s : Str) :
    s = s.takeWhile goIsSpace ++ trimLeft s :=
  (List.takeWhile_append_dropWhile goIsSpace s).symm

lemma trimRight_decomp (s : Str) :
    s = trimRight s ++ (s.reverse.takeWhile goIsSpace).reverse := by
  conv_lhs => rw [← s.reverse_reverse,
    ← List.takeWhile_append_dropWhile goIsSpace s.reverse]
  rw [List.reverse_append]
  rfl

lemma trimSpace_decomp (s : Str) :
    s = s.takeWhile goIsSpace ++ trimSpace s ++
      ((trimLeft s).reverse.takeWhile goIsSpace).reverse := by
  rw [List.append_assoc]
  conv_lhs => rw [trimLeft_decomp s]
  congr 1
  exact trimRight_decomp (trimLeft s)

/-- Claim C5: for every byte content of the VERSION file, the version reader
returns exactly that content with leading and trailing whitespace (including
newlines) removed and all interior whitespace preserved — the result is a
contiguous slice of the content, the removed margins are all whitespace, and
the result neither starts nor ends with whitespace; if the file cannot be
read, the whole process terminates. -/
theorem VERSION_trims :
    VERSION none = .fatal () ∧
    ∀ content : Str, ∃ r pre suf : Str,
      VERSION (some content) = .ok () r ∧
      content = pre ++ r ++ suf ∧
      (∀ a ∈ pre, goIsSpace a = true) ∧
      (∀ a ∈ suf, goIsSpace a = true) ∧
      (∀ a, r.head? = some a → goIsSpace a = false) ∧
      (∀ a, r.getLast? = some a → goIsSpace a = false) := by
  refine ⟨rfl, fun content => ?_⟩
  refine ⟨trimSpace content, content.takeWhile goIsSpace,
    ((trimLeft content).reverse.takeWhile goIsSpace).reverse, rfl,
    trimSpace_decomp content, ?_, ?_, ?_, ?_⟩
  · exact fun a ha => List.mem_takeWhile_imp ha
  · intro a ha
    exact List.mem_takeWhile_imp (List.mem_reverse.mp ha)
  · intro a ha
    exact head?_trimLeft_not_space
      (head?_of_isPrefix (trimRight_isPrefix (trimLeft content)) ha)
  · intro a ha
    exact getLast?_trimRight_not_space ha

/-- Claim C1: for every argument list, when the git binary is not found
(cmd.Run returns exec.ErrNotFound), RunGit never terminates the process and
returns the empty string; it emits the warning exactly when the process-wide
warnedAboutGit flag is still unset — i.e. only on the first such call, every
later call (which sees the flag already set) stays silent — and leaves the
flag set afterwards. -/
theorem runGit_notFound_warns_once :
    ∀ (args : List Str) (st : GitState),
      RunGit args .notFound st =
        .ok (⟨true⟩, if st.warnedAboutGit then [] else [gitWarning]) [] := by
  intro args st
  cases st with
  | mk w => cases w <;> simp [RunGit]

lemma joinSpace_cons (s : Str) (rest : List Str) :
    joinSpace (s :: rest) = s ++ (rest.map (fun a => ' ' :: a)).join := by
  induction rest generalizing s with
  | nil => simp [joinSpace]
  | cons r rs ih => simp [joinSpace, ih r]

/-- Claim C6: for every command (program name plus arguments) and every
would-be subprocess outcome, when the dry-run flag is set MustRun never
executes the subprocess (executed = false, and the outcome oracle is
irrelevant), never terminates the process, and prints exactly one line: the
">>> " tag followed by the program name followed by the space-joined
arguments. -/
theorem mustRun_dryRun :
    ∀ (outcome : RunOutcome) (prog : Str) (rest : List Str),
      MustRun true outcome ⟨prog :: rest⟩ =
        .ok ⟨[">>> ".toList ++ (prog ++ (rest.map (fun a => ' ' :: a)).join)],
          false⟩ () := by
  intro outcome prog rest
  simp [MustRun, joinSpace_cons]

/-- Claim C4: for every pattern list in which no pattern contains the
wildcard marker "...", ExpandPackagesNoVendor returns its input unchanged and
in the same order, and invokes no subprocess (the world flag recording a
subprocess invocation is false, and the subprocess-outcome oracle is
irrelevant). -/
theorem expand_id (patterns : List Str) (goList : GoListOutcome)
    (h : expandNeeded patterns = false) :
    ExpandPackagesNoVendor goList patterns = .ok false patterns := by
  simp [ExpandPackagesNoVendor, h]

/-- Witness for C4 at a concrete input: the single pattern "fmt" has no
wildcard, and the expander returns it unchanged without a subprocess. -/
theorem expand_id_witness :
    expandNeeded ["fmt".toList] = false ∧
    ExpandPackagesNoVendor (.ok []) ["fmt".toList] = .ok false ["fmt".toList] :=
  ⟨by decide, expand_id ["fmt".toList] (.ok []) (by decide)⟩

/-- Claim C7: on the input patterns ["fmt", "pkg/..."] and a package-listing
command whose combined output is "pkg/a\npkg/vendor/b\npkg/c",
ExpandPackagesNoVendor invokes the subprocess and returns exactly
["pkg/a", "pkg/c"]: order preserved, vendor line dropped. -/
theorem expand_example :
    ExpandPackagesNoVendor (.ok "pkg/a\npkg/vendor/b\npkg/c".toList)
      ["fmt".toList, "pkg/...".toList] =
    .ok true ["pkg/a".toList, "pkg/c".toList] := by decide

lemma mem_filterVendor {p : Str} :
    ∀ {lines : List Str}, p ∈ filterVendor lines →
      goContains p vendorSeg = false := by
  intro lines
  induction lines with
  | nil => intro h; simp [filterVendor] at h
  | cons line rest ih =>
    intro h
    by_cases hv : goContains line vendorSeg = true
    · rw [filterVendor, if_pos hv] at h
      exact ih h
    · rw [filterVendor, if_neg hv] at h
      rcases List.mem_cons.mp h with heq | hmem
      · rw [heq]
        rcases Bool.eq_false_or_eq_true (goContains (trimSpace line) vendorSeg)
          with ht | hf
        · exact absurd (goContains_trimSpace ht) hv
        · exact hf
      · exact ih hmem

/-- Claim C2: whenever at least one input pattern contains the wildcard
marker "..." (so expansion is performed), then for every combined output the
package-listing command produces, no element of the list returned by
ExpandPackagesNoVendor contains the "/vendor/" segment. -/
theorem expand_no_vendor (patterns : List Str) (out : Str) (w : Bool)
    (res : List Str) (hx : expandNeeded patterns = true)
    (hr : ExpandPackagesNoVendor (.ok out) patterns = .ok w res) :
    ∀ p ∈ res, goContains p vendorSeg = false := by
  intro p hp
  rw [ExpandPackagesNoVendor, if_pos hx] at hr
  cases hr
  exact mem_filterVendor hp

/-- Witness for C2 at a concrete input: with patterns ["pkg/..."] and
listing output "pkg/a\npkg/vendor/b", the returned entry "pkg/a" is free of
"/vendor/". -/
theorem expand_no_vendor_witness :
    expandNeeded ["pkg/...".toList] = true ∧
    goContains "pkg/a".toList vendorSeg = false :=
  ⟨by decide,
    expand_no_vendor ["pkg/...".toList] "pkg/a\npkg/vendor/b".toList true
      ["pkg/a".toList]
      (by decide) (by decide) "pkg/a".toList (by decide)⟩

lemma splitLines_ne_nil (s : Str) : splitLines s ≠ [] := by
  cases s with
  | nil => simp [splitLines]
  | cons c rest =>
    rw [splitLines]
    by_cases hc : c = '\n'
    · simp [hc]
    · rw [if_neg hc]
      cases splitLines rest <;> simp

lemma splitLines_append_newline (s : Str) :
    splitLines (s ++ ['\n']) = splitLines s ++ [[]] := by
  induction s with
  | nil => decide
  | cons c t ih =>
    rw [List.cons_append, splitLines, splitLines]
    by_cases hc : c = '\n'
    · rw [if_pos hc, if_pos hc, ih, List.cons_append]
    · rw [if_neg hc, if_neg hc, ih]
      rcases hs : splitLines t with _ | ⟨l, ls⟩
      · exact absurd hs (splitLines_ne_nil t)
      · simp

lemma filterVendor_append (xs ys : List Str) :
    filterVendor (xs ++ ys) = filterVendor xs ++ filterVendor ys := by
  induction xs with
  | nil => simp [filterVendor]
  | cons x rest ih =>
    by_cases hv : goContains x vendorSeg = true
    · rw [List.cons_append, filterVendor, if_pos hv, filterVendor, if_pos hv, ih]
    · rw [List.cons_append, filterVendor, if_neg hv, filterVendor, if_neg hv, ih,
        List.cons_append]

/-- Claim C10: when expansion is performed (some pattern contains "...") and
the package-listing command's combined output ends with a newline, the list
ExpandPackagesNoVendor returns ends with an empty string: the final empty
line does not contain "/vendor/", so it is kept (trimmed to "") rather than
filtered out. -/
theorem expand_trailing_empty (patterns : List Str) (out : Str)
    (hx : expandNeeded patterns = true) :
    ∃ res, ExpandPackagesNoVendor (.ok (out ++ ['\n'])) patterns = .ok true res ∧
      res.getLast? = some [] := by
  refine ⟨filterVendor (splitLines (out ++ ['\n'])), ?_, ?_⟩
  · rw [ExpandPackagesNoVendor, if_pos hx]
  · rw [splitLines_append_newline, filterVendor_append]
    have hone : filterVendor [[]] = [[]] := by decide
    rw [hone, List.getLast?_concat]

/-- Witness for C10 at a concrete input: with pattern "pkg/..." and output
"pkg/a\n", the returned list ends with the empty string. -/
theorem expand_trailing_empty_witness :
    expandNeeded ["pkg/...".toList] = true ∧
    ∃ res, ExpandPackagesNoVendor (.ok ("pkg/a".toList ++ ['\n']))
        ["pkg/...".toList] = .ok true res ∧
      res.getLast? = some [] :=
  ⟨by decide, expand_trailing_empty ["pkg/...".toList] "pkg/a".toList (by decide)⟩

lemma render_fatal_of_exists {Tpl Data : Type} (O : TmplOracle Tpl Data)
    (mkdirOk : Bool) (fs : FS) (tpl : Tpl) (outputFile : Str) (x : Data)
    (h : (fsLookup fs outputFile).isSome = true) :
    render O mkdirOk fs tpl outputFile x = .fatal fs := by
  cases mkdirOk with
  | false => rfl
  | true => simp [render, h]

/-- Claim C3: for both Render (template parsed from a file) and RenderString
(template parsed from an inline string), if the destination output file
already exists, the call terminates the process with the file system
unchanged — the existing file is never overwritten — for any template
source, any template content and any data value. -/
theorem render_no_overwrite :
    ∀ (Tpl Data : Type) (O : TmplOracle Tpl Data) (mkdirOk : Bool) (fs : FS)
      (templateFile templateContent outputFile : Str) (x : Data),
      (fsLookup fs outputFile).isSome = true →
      Render O mkdirOk fs templateFile outputFile x = .fatal fs ∧
      RenderString O mkdirOk fs templateContent outputFile x = .fatal fs := by
  intro Tpl Data O mkdirOk fs templateFile templateContent outputFile x h
  constructor
  · rw [Render]
    cases htf : fsLookup fs templateFile with
    | none => rfl
    | some content =>
      show (match O.parse content with
          | none => ProcResult.fatal fs
          | some tpl => render O mkdirOk fs tpl outputFile x) =
        ProcResult.fatal fs
      cases hp : O.parse content with
      | none => rfl
      | some tpl => exact render_fatal_of_exists O mkdirOk fs tpl outputFile x h
  · rw [RenderString]
    cases hp : O.parse templateContent with
    | none => rfl
    | some tpl => exact render_fatal_of_exists O mkdirOk fs tpl outputFile x h

/-- Witness for C3 at a concrete input: Tpl = Data = Unit, a one-file file
system in which the output path "o" already holds "c"; both entry points die
with the file system unchanged. -/
theorem render_no_overwrite_witness :
    (fsLookup [("o".toList, "c".toList)] "o".toList).isSome = true ∧
    @Render Unit Unit
        ⟨fun _ => some (), fun _ _ => some [], fun _ _ => []⟩ true
        [("o".toList, "c".toList)] "t".toList "o".toList () =
      .fatal [("o".toList, "c".toList)] ∧
    @RenderString Unit Unit
        ⟨fun _ => some (), fun _ _ => some [], fun _ _ => []⟩ true
        [("o".toList, "c".toList)] "tc".toList "o".toList () =
      .fatal [("o".toList, "c".toList)] := by
  refine ⟨by decide, ?_⟩
  exact render_no_overwrite Unit Unit
    ⟨fun _ => some (), fun _ _ => some [], fun _ _ => []⟩ true
    [("o".toList, "c".toList)] "t".toList "tc".toList "o".toList () (by decide)

/-- Claim C9: CopyFile creates or truncates the destination before it opens
the source, so when the source cannot be opened (here: does not exist, and is
a different path than the destination) the process terminates with the
destination already present and truncated to empty content — the destination
is not left unchanged on this error path. -/
theorem copyFile_truncates_dst_first (copyOk : Bool) (partBytes : Str)
    (fs : FS) (dst src : Str) (hne : src ≠ dst)
    (hsrc : fsLookup fs src = none) :
    CopyFile true true copyOk partBytes fs dst src =
      .fatal ⟨fsInsert fs dst [], [0], []⟩ ∧
    fsLookup (fsInsert fs dst []) dst = some [] := by
  have hlk : fsLookup (fsInsert fs dst []) src = none := by
    rw [fsInsert, fsLookup, if_neg (fun hdx => hne hdx.symm), hsrc]
  constructor
  · rw [CopyFile]
    simp only [Bool.not_true, Bool.false_eq_true, if_false, hlk]
  · rw [fsInsert, fsLookup, if_pos rfl]

/-- Witness for C9 at a concrete input: copying the absent source "s" to
destination "d" over the empty file system dies with "d" created empty. -/
theorem copyFile_truncates_dst_first_witness :
    "s".toList ≠ "d".toList ∧
    (CopyFile true true true [] [] "d".toList "s".toList =
      .fatal ⟨fsInsert [] "d".toList [], [0], []⟩ ∧
    fsLookup (fsInsert [] "d".toList []) "d".toList = some []) :=
  ⟨by decide,
    copyFile_truncates_dst_first true [] [] "d".toList "s".toList
      (by decide) rfl⟩

/-- Counterexample to claim C8 as stated: a concrete run of CopyFile in
which io.Copy fails after both files were opened; the process dies via
log.Fatal (which does not run the deferred Close calls), so the opened
handles (0 = destination, 1 = source) are not released by the program —
the closed set is empty. -/
theorem copyFile_release_cex :
    ∃ w : CopyWorld,
      CopyFile true true false "x".toList [("s".toList, "ab".toList)]
        "d".toList "s".toList = .fatal w ∧
      ¬ (w.opened ⊆ w.closed) :=
  ⟨⟨[("d".toList, "x".toList), ("d".toList, []), ("s".toList, "ab".toList)],
      [0, 1], []⟩,
    by decide, by decide⟩

/-- Claim C8 as amended: only the normal exit path of CopyFile releases the
handles — a successful run opens both the destination (0) and the source (1)
and the deferred Closes release both, in LIFO order; on every error path the
process dies through log.Fatal, i.e. os.Exit, which skips the deferred
Closes, so no handle is closed by the program (any open handle is reclaimed
only by operating-system process teardown). -/
theorem copyFile_handles (mkdirOk openDstOk copyOk : Bool) (partBytes : Str)
    (fs : FS) (dst src : Str) :
    (∀ w, CopyFile mkdirOk openDstOk copyOk partBytes fs dst src = .ok w () →
      w.opened = [0, 1] ∧ w.closed = [1, 0]) ∧
    (∀ w, CopyFile mkdirOk openDstOk copyOk partBytes fs dst src = .fatal w →
      w.closed = []) := by
  rw [CopyFile]
  cases mkdirOk with
  | false =>
    refine ⟨fun w hw => ?_, fun w hw => ?_⟩
    · cases hw
    · cases hw; rfl
  | true =>
    cases openDstOk with
    | false =>
      refine ⟨fun w hw => ?_, fun w hw => ?_⟩
      · cases hw
      · cases hw; rfl
    | true =>
      simp only [Bool.not_true, Bool.false_eq_true, if_false]
      cases hlk : fsLookup (fsInsert fs dst []) src with
      | none =>
        refine ⟨fun w hw => ?_, fun w hw => ?_⟩
        · cases hw
        · cases hw; rfl
      | some srcContent =>
        cases copyOk with
        | false =>
          refine ⟨fun w hw => ?_, fun w hw => ?_⟩
          · simp at hw
          · cases hw; rfl
        | true =>
          refine ⟨fun w hw => ?_, fun w hw => ?_⟩
          · cases hw; exact ⟨rfl, rfl⟩
          · simp at hw

/-- Witness for the amended C8 at concrete inputs: a successful copy closes
both handles in LIFO order, and the source-missing fatal path closes none. -/
theorem copyFile_handles_witness :
    ((⟨[("d".toList, "a".toList), ("d".toList, []), ("s".toList, "a".toList)],
        [0, 1], [1, 0]⟩ : CopyWorld).opened = [0, 1] ∧
      (⟨[("d".toList, "a".toList), ("d".toList, []), ("s".toList, "a".toList)],
        [0, 1], [1, 0]⟩ : CopyWorld).closed = [1, 0]) ∧
    (⟨fsInsert [] "d".toList [], [0], []⟩ : CopyWorld).closed = [] :=
  ⟨(copyFile_handles true true true [] [("s".toList, "a".toList)]
      "d".toList "s".toList).1 _ (by decide),
    (copyFile_handles true true true [] [] "d".toList "s".toList).2 _
      (by decide)⟩
